import Mathlib

/-!
Shallow embedding of the GrumpyVM sources (`src/isa.rs`, `src/assemble.rs`,
`src/vm.rs`) and verification of the specification's claims about them.

Conventions of the embedding:
* Rust `u32` values are `Nat` with an explicit `< 2^32` bound where it matters;
  Rust `i32` values are `Int` with explicit `-2^31 ≤ i < 2^31` bounds and
  two's-complement byte encodings.
* Byte streams are `List Nat` (each entry a byte value); the Rust byte
  iterators become state-passing on the remaining list.
* Rust `Result<_, String>` becomes `Except String _` for the codec, and the
  richer `Res` type for the VM, whose extra `panicked` constructor records
  the places where the Rust code can panic (unchecked `Vec` indexing,
  debug-mode integer overflow, division by zero) as opposed to returning a
  `Result::Err`.
-/

namespace GrumpyVM

/-- Unary operators (`src/isa.rs`, `enum Unop`). -/
inductive Unop where
  | Neg
deriving DecidableEq, Repr

/-- Binary operators (`src/isa.rs`, `enum Binop`). -/
inductive Binop where
  | Add
  | Mul
  | Sub
  | Div
  | Lt
  | Eq
deriving DecidableEq, Repr

/-- GrumpyVM values (`src/isa.rs`, `enum Val`). `Vi32` carries an `Int`
(bounded to the i32 range by well-formedness), `Vloc` a `Nat` (bounded to
u32), `Vsize`/`Vaddr` are the implementation-internal kinds. -/
inductive Val where
  | Vunit
  | Vi32 (i : Int)
  | Vbool (b : Bool)
  | Vloc (l : Nat)
  | Vundef
  | Vsize (n : Nat)
  | Vaddr (a : Nat)
deriving DecidableEq, Repr

/-- Native instructions (`src/isa.rs`, `enum Instr`). The `u32` immediates
are `Nat`. -/
inductive Instr where
  | Push (v : Val)
  | Pop
  | Peek (i : Nat)
  | Unary (u : Unop)
  | Binary (b : Binop)
  | Swap
  | Alloc
  | Set
  | Get
  | Var (i : Nat)
  | Store (i : Nat)
  | SetFrame (i : Nat)
  | Call
  | Ret
  | Branch
  | Halt
deriving DecidableEq, Repr

/-- Pseudo-instructions (`src/isa.rs`, `enum PInstr`). -/
inductive PInstr where
  | PLabel (l : String)
  | PPush (l : String)
  | PI (i : Instr)
deriving DecidableEq, Repr

/-- Embedding of `Val::to_i32` (`src/isa.rs`). -/
def Val.to_i32 : Val → Option Int
  | .Vi32 i => some i
  | _ => none

/-- Embedding of `Val::to_bool` (`src/isa.rs`). -/
def Val.to_bool : Val → Option Bool
  | .Vbool b => some b
  | _ => none

/-- Embedding of `Val::to_loc` (`src/isa.rs`). -/
def Val.to_loc : Val → Option Nat
  | .Vloc l => some l
  | _ => none

/-- Embedding of `Val::to_address` (`src/isa.rs`). -/
def Val.to_address : Val → Option Nat
  | .Vaddr a => some a
  | _ => none

/-! ### Bytecode codec (`src/isa.rs`, `ToBytes` / `FromBytes` impls) -/

/-- Embedding of `impl ToBytes for u32`: 4 big-endian bytes. -/
def u32_to_bytes (n : Nat) : List Nat :=
  [n / 2 ^ 24 % 2 ^ 8, n / 2 ^ 16 % 2 ^ 8, n / 2 ^ 8 % 2 ^ 8, n % 2 ^ 8]

/-- Embedding of `impl ToBytes for i32`: 4 big-endian bytes of the two's-complement
representation. -/
def i32_to_bytes (i : Int) : List Nat :=
  u32_to_bytes (i % (2 ^ 32 : Int)).toNat

/-- Embedding of `impl FromBytes for u32`: consume 4 big-endian bytes. -/
def u32_from_bytes : List Nat → Except String (Nat × List Nat)
  | b0 :: b1 :: b2 :: b3 :: rest =>
      .ok (b0 * 2 ^ 24 + b1 * 2 ^ 16 + b2 * 2 ^ 8 + b3, rest)
  | _ => .error "not enough bytes"

/-- Embedding of `impl FromBytes for i32`: consume 4 big-endian bytes, reading them as a
two's-complement i32. -/
def i32_from_bytes (bytes : List Nat) : Except String (Int × List Nat) :=
  match u32_from_bytes bytes with
  | .ok (n, rest) =>
      .ok (if n < 2 ^ 31 then (n : Int) else (n : Int) - 2 ^ 32, rest)
  | .error e => .error e

/-- Embedding of `impl ToBytes for Unop` (`src/isa.rs`). -/
def Unop.to_bytes : Unop → List Nat
  | .Neg => [0x00]

/-- Embedding of `impl ToBytes for Binop` (`src/isa.rs`). -/
def Binop.to_bytes : Binop → List Nat
  | .Add => [0x00]
  | .Mul => [0x01]
  | .Sub => [0x02]
  | .Div => [0x03]
  | .Lt => [0x04]
  | .Eq => [0x05]

/-- Embedding of `impl ToBytes for Val` (`src/isa.rs`). The Rust code panics on the
internal constructors `Vsize`/`Vaddr` ("unsupported constructor"); the
embedding returns `none` there. -/
def Val.to_bytes : Val → Option (List Nat)
  | .Vunit => some [0x00]
  | .Vi32 i => some (0x01 :: i32_to_bytes i)
  | .Vbool true => some [0x02]
  | .Vbool false => some [0x03]
  | .Vloc l => some (0x04 :: u32_to_bytes l)
  | .Vundef => some [0x05]
  | .Vsize _ => none
  | .Vaddr _ => none

/-- Embedding of `impl ToBytes for Instr` (`src/isa.rs`): opcode byte followed by the
operand's encoding. `none` only when the operand is an internal value kind
(where the Rust `Val` encoder panics). -/
def Instr.to_bytes : Instr → Option (List Nat)
  | .Push v => (Val.to_bytes v).map (0x00 :: ·)
  | .Pop => some [0x01]
  | .Peek i => some (0x02 :: u32_to_bytes i)
  | .Unary u => some (0x03 :: u.to_bytes)
  | .Binary b => some (0x04 :: b.to_bytes)
  | .Swap => some [0x05]
  | .Alloc => some [0x06]
  | .Get => some [0x07]
  | .Set => some [0x08]
  | .Var i => some (0x09 :: u32_to_bytes i)
  | .Store i => some (0x0A :: u32_to_bytes i)
  | .SetFrame i => some (0x0B :: u32_to_bytes i)
  | .Call => some [0x0C]
  | .Ret => some [0x0D]
  | .Branch => some [0x0E]
  | .Halt => some [0x0F]

/-- Embedding of `impl FromBytes for Unop` (`src/isa.rs`). -/
def Unop.from_bytes : List Nat → Except String (Unop × List Nat)
  | 0x00 :: rest => .ok (.Neg, rest)
  | b :: _ => .error ("unknown unop code: " ++ toString b)
  | [] => .error "not enough bytes"

/-- Embedding of `impl FromBytes for Binop` (`src/isa.rs`). -/
def Binop.from_bytes : List Nat → Except String (Binop × List Nat)
  | 0x00 :: rest => .ok (.Add, rest)
  | 0x01 :: rest => .ok (.Mul, rest)
  | 0x02 :: rest => .ok (.Sub, rest)
  | 0x03 :: rest => .ok (.Div, rest)
  | 0x04 :: rest => .ok (.Lt, rest)
  | 0x05 :: rest => .ok (.Eq, rest)
  | b :: _ => .error ("unknown binop code: " ++ toString b)
  | [] => .error "not enough bytes"

/-- Embedding of `impl FromBytes for Val` (`src/isa.rs`). -/
def Val.from_bytes : List Nat → Except String (Val × List Nat)
  | 0x00 :: rest => .ok (.Vunit, rest)
  | 0x01 :: rest =>
      match i32_from_bytes rest with
      | .ok (i, rest1) => .ok (.Vi32 i, rest1)
      | .error e => .error e
  | 0x02 :: rest => .ok (.Vbool true, rest)
  | 0x03 :: rest => .ok (.Vbool false, rest)
  | 0x04 :: rest =>
      match u32_from_bytes rest with
      | .ok (l, rest1) => .ok (.Vloc l, rest1)
      | .error e => .error e
  | 0x05 :: rest => .ok (.Vundef, rest)
  | b :: _ => .error ("unknown val code: " ++ toString b)
  | [] => .error "not enough bytes"

/-- Embedding of `impl FromBytes for Instr` (`src/isa.rs`). -/
def Instr.from_bytes : List Nat → Except String (Instr × List Nat)
  | 0x00 :: rest =>
      match Val.from_bytes rest with
      | .ok (v, rest1) => .ok (.Push v, rest1)
      | .error e => .error e
  | 0x01 :: rest => .ok (.Pop, rest)
  | 0x02 :: rest =>
      match u32_from_bytes rest with
      | .ok (i, rest1) => .ok (.Peek i, rest1)
      | .error e => .error e
  | 0x03 :: rest =>
      match Unop.from_bytes rest with
      | .ok (u, rest1) => .ok (.Unary u, rest1)
      | .error e => .error e
  | 0x04 :: rest =>
      match Binop.from_bytes rest with
      | .ok (b, rest1) => .ok (.Binary b, rest1)
      | .error e => .error e
  | 0x05 :: rest => .ok (.Swap, rest)
  | 0x06 :: rest => .ok (.Alloc, rest)
  | 0x07 :: rest => .ok (.Set, rest)
  | 0x08 :: rest => .ok (.Get, rest)
  | 0x09 :: rest =>
      match u32_from_bytes rest with
      | .ok (i, rest1) => .ok (.Var i, rest1)
      | .error e => .error e
  | 0x0A :: rest =>
      match u32_from_bytes rest with
      | .ok (i, rest1) => .ok (.Store i, rest1)
      | .error e => .error e
  | 0x0B :: rest =>
      match u32_from_bytes rest with
      | .ok (i, rest1) => .ok (.SetFrame i, rest1)
      | .error e => .error e
  | 0x0C :: rest => .ok (.Call, rest)
  | 0x0D :: rest => .ok (.Ret, rest)
  | 0x0E :: rest => .ok (.Branch, rest)
  | 0x0F :: rest => .ok (.Halt, rest)
  | b :: _ => .error ("unknown instr code: " ++ toString b)
  | [] => .error "not enough bytes"

/-- Embedding of `impl FromBytes for Vec<Instr>` (`src/isa.rs`), inner loop: decode `n`
instructions in sequence. -/
def instrs_from_bytes : Nat → List Nat → Except String (List Instr × List Nat)
  | 0, rest => .ok ([], rest)
  | n + 1, bytes =>
      match Instr.from_bytes bytes with
      | .ok (i, rest) =>
          match instrs_from_bytes n rest with
          | .ok (is, rest1) => .ok (i :: is, rest1)
          | .error e => .error e
      | .error e => .error e

/-- Embedding of `impl FromBytes for Vec<Instr>` (`src/isa.rs`): a 4-byte big-endian
instruction count followed by that many instructions. -/
def prog_from_bytes (bytes : List Nat) : Except String (List Instr × List Nat) :=
  match u32_from_bytes bytes with
  | .ok (n, rest) => instrs_from_bytes n rest
  | .error e => .error e

/-- Modelled from the spec: the repository has no `ToBytes for Vec<Instr>`
impl under `src/` (only the decoder exists), so the program encoder follows
spec §4.1/§6: "a program is encoded as a 4-byte big-endian count of
instructions followed by each instruction in sequence". Encoding of the
instruction sequence itself. -/
def instrs_to_bytes : List Instr → Option (List Nat)
  | [] => some []
  | i :: is =>
      match i.to_bytes, instrs_to_bytes is with
      | some b, some bs => some (b ++ bs)
      | _, _ => none

/-- Modelled from the spec: whole-program encoder, `u32_be(instruction_count)`
followed by the instruction encodings (spec §6); the count is the program
length. -/
def prog_to_bytes (p : List Instr) : Option (List Nat) :=
  (instrs_to_bytes p).map (u32_to_bytes p.length ++ ·)

/-! ### Well-formedness of program values and instructions -/

/-- Program-legal values (spec §3): unit, an in-range i32, a boolean, an
in-range u32 location, or undefined. The internal kinds `Vsize`/`Vaddr`
are not program-legal. -/
def Val.progLegal : Val → Prop
  | .Vunit => True
  | .Vi32 i => -(2 ^ 31) ≤ i ∧ i < 2 ^ 31
  | .Vbool _ => True
  | .Vloc l => l < 2 ^ 32
  | .Vundef => True
  | .Vsize _ => False
  | .Vaddr _ => False

instance : DecidablePred Val.progLegal := by
  intro v
  cases v <;> (simp only [Val.progLegal]; infer_instance)

/-- Well-formed native instructions: any immediate value operand is
program-legal and any u32 immediate is in u32 range. -/
def Instr.wf : Instr → Prop
  | .Push v => v.progLegal
  | .Peek i => i < 2 ^ 32
  | .Var i => i < 2 ^ 32
  | .Store i => i < 2 ^ 32
  | .SetFrame i => i < 2 ^ 32
  | _ => True

instance : DecidablePred Instr.wf := by
  intro i
  cases i <;> (simp only [Instr.wf]; infer_instance)

/-! ### Codec round-trip lemmas -/

theorem u32_round_trip (n : Nat) (h : n < 2 ^ 32) (rest : List Nat) :
    u32_from_bytes (u32_to_bytes n ++ rest) = .ok (n, rest) := by
  simp only [u32_to_bytes, u32_from_bytes, List.cons_append, List.nil_append]
  congr 2
  omega

theorem i32_round_trip (i : Int) (h1 : -(2 ^ 31) ≤ i) (h2 : i < 2 ^ 31)
    (rest : List Nat) :
    i32_from_bytes (i32_to_bytes i ++ rest) = .ok (i, rest) := by
  have hn : (0 : Int) ≤ i % (2 ^ 32 : Int) := Int.emod_nonneg i (by norm_num)
  have hlt : i % (2 ^ 32 : Int) < (2 ^ 32 : Int) :=
    Int.emod_lt_of_pos i (by norm_num)
  have hcast : ((i % (2 ^ 32 : Int)).toNat : Int) = i % (2 ^ 32 : Int) :=
    Int.toNat_of_nonneg hn
  have hb : (i % (2 ^ 32 : Int)).toNat < 2 ^ 32 := by omega
  simp only [i32_to_bytes, i32_from_bytes, u32_round_trip _ hb rest]
  congr 2
  have hmod : i % (2 ^ 32 : Int) = if 0 ≤ i then i else i + 2 ^ 32 := by
    rcases le_or_lt 0 i with hpos | hneg
    · simp only [if_pos hpos]
      exact Int.emod_eq_of_lt hpos (by omega)
    · simp only [if_neg (not_le.mpr hneg)]
      have : (i + 2 ^ 32) % (2 ^ 32 : Int) = i % (2 ^ 32 : Int) := by
        omega
      rw [← this]
      exact Int.emod_eq_of_lt (by omega) (by omega)
  split <;> omega

theorem unop_round_trip (u : Unop) (rest : List Nat) :
    Unop.from_bytes (u.to_bytes ++ rest) = .ok (u, rest) := by
  cases u
  rfl

theorem binop_round_trip (b : Binop) (rest : List Nat) :
    Binop.from_bytes (b.to_bytes ++ rest) = .ok (b, rest) := by
  cases b <;> rfl

theorem val_round_trip (v : Val) (hv : v.progLegal) (rest : List Nat) :
    ∃ bs, v.to_bytes = some bs ∧ Val.from_bytes (bs ++ rest) = .ok (v, rest) := by
  cases v with
  | Vunit => exact ⟨_, rfl, rfl⟩
  | Vi32 i =>
      refine ⟨0x01 :: i32_to_bytes i, rfl, ?_⟩
      obtain ⟨h1, h2⟩ := hv
      simp only [List.cons_append, Val.from_bytes, i32_round_trip i h1 h2 rest]
  | Vbool b => cases b <;> exact ⟨_, rfl, rfl⟩
  | Vloc l =>
      refine ⟨0x04 :: u32_to_bytes l, rfl, ?_⟩
      simp only [List.cons_append, Val.from_bytes, u32_round_trip l hv rest]
  | Vundef => exact ⟨_, rfl, rfl⟩
  | Vsize n => exact absurd hv id
  | Vaddr a => exact absurd hv id

theorem instr_round_trip (i : Instr) (hi : i.wf) (hset : i ≠ .Set)
    (hget : i ≠ .Get) (rest : List Nat) :
    ∃ bs, i.to_bytes = some bs ∧ Instr.from_bytes (bs ++ rest) = .ok (i, rest) := by
  cases i with
  | Push v =>
      obtain ⟨bs, hbs, hdec⟩ := val_round_trip v hi rest
      refine ⟨0x00 :: bs, ?_, ?_⟩
      · simp [Instr.to_bytes, hbs]
      · simp only [List.cons_append, Instr.from_bytes, hdec]
  | Pop => exact ⟨_, rfl, rfl⟩
  | Peek i =>
      refine ⟨0x02 :: u32_to_bytes i, rfl, ?_⟩
      simp only [List.cons_append, Instr.from_bytes, u32_round_trip i hi rest]
  | Unary u =>
      refine ⟨0x03 :: u.to_bytes, rfl, ?_⟩
      simp only [List.cons_append, Instr.from_bytes, unop_round_trip u rest]
  | Binary b =>
      refine ⟨0x04 :: b.to_bytes, rfl, ?_⟩
      simp only [List.cons_append, Instr.from_bytes, binop_round_trip b rest]
  | Swap => exact ⟨_, rfl, rfl⟩
  | Alloc => exact ⟨_, rfl, rfl⟩
  | Set => exact absurd rfl hset
  | Get => exact absurd rfl hget
  | Var i =>
      refine ⟨0x09 :: u32_to_bytes i, rfl, ?_⟩
      simp only [List.cons_append, Instr.from_bytes, u32_round_trip i hi rest]
  | Store i =>
      refine ⟨0x0A :: u32_to_bytes i, rfl, ?_⟩
      simp only [List.cons_append, Instr.from_bytes, u32_round_trip i hi rest]
  | SetFrame i =>
      refine ⟨0x0B :: u32_to_bytes i, rfl, ?_⟩
      simp only [List.cons_append, Instr.from_bytes, u32_round_trip i hi rest]
  | Call => exact ⟨_, rfl, rfl⟩
  | Ret => exact ⟨_, rfl, rfl⟩
  | Branch => exact ⟨_, rfl, rfl⟩
  | Halt => exact ⟨_, rfl, rfl⟩

theorem instrs_round_trip (p : List Instr) (hp : ∀ i ∈ p, Instr.wf i)
    (hpset : ∀ i ∈ p, i ≠ Instr.Set ∧ i ≠ Instr.Get) (rest : List Nat) :
    ∃ bs, instrs_to_bytes p = some bs ∧
      instrs_from_bytes p.length (bs ++ rest) = .ok (p, rest) := by
  induction p generalizing rest with
  | nil => exact ⟨[], rfl, rfl⟩
  | cons i is ih =>
      obtain ⟨bs2, hbs2, hdec2⟩ := ih (fun j hj => hp j (List.mem_cons_of_mem i hj))
        (fun j hj => hpset j (List.mem_cons_of_mem i hj)) rest
      obtain ⟨bs1, hbs1, hdec1⟩ := instr_round_trip i (hp i (List.mem_cons_self i is))
        (hpset i (List.mem_cons_self i is)).1 (hpset i (List.mem_cons_self i is)).2 (bs2 ++ rest)
      refine ⟨bs1 ++ bs2, ?_, ?_⟩
      · simp [instrs_to_bytes, hbs1, hbs2]
      · simp only [List.length_cons, instrs_from_bytes, List.append_assoc, hdec1, hdec2]

theorem prog_round_trip (p : List Instr) (hp : ∀ i ∈ p, Instr.wf i)
    (hpset : ∀ i ∈ p, i ≠ Instr.Set ∧ i ≠ Instr.Get) (hlen : p.length < 2 ^ 32)
    (rest : List Nat) :
    ∃ bs, prog_to_bytes p = some bs ∧ prog_from_bytes (bs ++ rest) = .ok (p, rest) := by
  obtain ⟨bs, hbs, hdec⟩ := instrs_round_trip p hp hpset rest
  refine ⟨u32_to_bytes p.length ++ bs, ?_, ?_⟩
  · simp [prog_to_bytes, hbs]
  · simp only [prog_from_bytes, List.append_assoc, u32_round_trip p.length hlen (bs ++ rest), hdec]

/-- C1: the claimed codec round-trip `decode(encode(p)) == p` FAILS on the
code: `Instr::to_bytes` emits opcode `0x07` for `Get` and `0x08` for `Set`,
while `Instr::from_bytes` decodes `0x07` as `Set` and `0x08` as `Get`, so
the one-instruction program `[Set]` encodes to `00 00 00 01 08` which
decodes to `[Get]`, and the single instruction `Set` round-trips to `Get`
(and `Get` to `Set`). This theorem evaluates the code at those failing
inputs. -/
theorem claim1_codec_get_set_swapped :
    Instr.to_bytes .Set = some [0x08] ∧
    Instr.from_bytes [0x08] = .ok (.Get, []) ∧
    Instr.to_bytes .Get = some [0x07] ∧
    Instr.from_bytes [0x07] = .ok (.Set, []) ∧
    prog_to_bytes [.Set] = some [0x00, 0x00, 0x00, 0x01, 0x08] ∧
    prog_from_bytes [0x00, 0x00, 0x00, 0x01, 0x08] = .ok ([.Get], []) := by
  exact ⟨rfl, rfl, rfl, rfl, rfl, rfl⟩

/-! ### Assembler (`src/assemble.rs`) -/

/-- Modelled from the spec: `assemble` in `src/assemble.rs` is
`unimplemented!()` (only its signature exists under `src/`), so the
assembler is modelled from spec §4.2, pass 1: walk the pseudo-instructions
keeping a running native-address counter; a label declaration binds the
label to the current counter (duplicate declarations are an error) and
emits nothing; every other pseudo-instruction advances the counter by one.
The label table is an association list threaded through the walk. -/
def pass1 (tbl : List (String × Nat)) (ctr : Nat) :
    List PInstr → Except String (List (String × Nat))
  | [] => .ok tbl
  | .PLabel l :: rest =>
      if (tbl.lookup l).isSome then .error ("duplicate label: " ++ l)
      else pass1 (tbl ++ [(l, ctr)]) ctr rest
  | .PPush _ :: rest => pass1 tbl (ctr + 1) rest
  | .PI _ :: rest => pass1 tbl (ctr + 1) rest

/-- Modelled from the spec: assembler pass 2 (spec §4.2): emit one native
instruction per non-label pseudo-instruction; a push-label becomes a push
of the location value found in the table (a missing label is an error);
label declarations emit nothing. -/
def pass2 (tbl : List (String × Nat)) : List PInstr → Except String (List Instr)
  | [] => .ok []
  | .PLabel _ :: rest => pass2 tbl rest
  | .PPush l :: rest =>
      match tbl.lookup l with
      | some a => (pass2 tbl rest).map (fun is => Instr.Push (Val.Vloc a) :: is)
      | none => .error ("undefined label: " ++ l)
  | .PI i :: rest => (pass2 tbl rest).map (fun is => i :: is)

/-- Modelled from the spec: `assemble` (spec §4.2), two passes over the
pseudo-instruction sequence. -/
def assemble (p : List PInstr) : Except String (List Instr) :=
  match pass1 [] 0 p with
  | .ok tbl => pass2 tbl p
  | .error e => .error e

/-- C2: assembling `push La; halt; La: push 1; halt` (a forward label
reference) succeeds and yields a native program whose first instruction
pushes the location value 2, the address of the `push 1` instruction; the
label declaration emits no instruction and each of the other four
pseudo-instructions lowers to exactly one native instruction. -/
theorem claim2_assemble_forward_reference :
    assemble [.PPush "La", .PI .Halt, .PLabel "La", .PI (.Push (.Vi32 1)), .PI .Halt] =
      .ok [.Push (.Vloc 2), .Halt, .Push (.Vi32 1), .Halt] := by
  rfl

/-! ### The VM (`src/vm.rs`) -/

/-- Embedding of `STK_SIZE` (`src/vm.rs`): maximum stack size. -/
def STK_SIZE : Nat := 1024

/-- Embedding of `HEAP_SIZE` (`src/vm.rs`): maximum heap size. -/
def HEAP_SIZE : Nat := 1024

/-- Result of a VM computation: `ok`/`err` mirror Rust's
`Result<_, String>`, while `panicked` marks executions on which the Rust
code panics (unchecked `Vec` indexing, debug-profile integer overflow,
division by zero) rather than returning an `Err`. -/
inductive Res (α : Type) where
  | ok (a : α)
  | err (msg : String)
  | panicked (msg : String)
deriving DecidableEq, Repr

/-- Bind for `Res`, propagating errors and panics. -/
def Res.bind {α β : Type} : Res α → (α → Res β) → Res β
  | .ok a, f => f a
  | .err m, _ => .err m
  | .panicked m, _ => .panicked m

instance : Monad Res where
  pure := .ok
  bind := Res.bind

/-- GrumpyVM machine state (`src/vm.rs`, `struct State`). Stack and heap
are lists in `Vec` order: index 0 is the bottom of the stack, pushes go at
the end. -/
structure State where
  pc : Nat
  fp : Nat
  stk : List Val
  heap : List Val
  prog : List Instr
deriving DecidableEq, Repr

/-- Embedding of `State::init` (`src/vm.rs`). -/
def State.init (prog : List Instr) : State :=
  { pc := 0, fp := 0, stk := [], heap := [], prog := prog }

/-- Embedding of `State::push` (`src/vm.rs`): push a value, checking for overflow. -/
def State.push (s : State) (v : Val) : Res State :=
  if s.stk.length < STK_SIZE then .ok { s with stk := s.stk ++ [v] }
  else .err "out of stack space"

/-- Embedding of `State::pop` (`src/vm.rs`): pop a value, checking for underflow. -/
def State.pop (s : State) : Res (Val × State) :=
  match s.stk.getLast? with
  | some v => .ok (v, { s with stk := s.stk.dropLast })
  | none => .err "attempt to pop empty stack"

/-- Debug-profile checked i32 arithmetic: a result outside the i32 range is
a Rust panic ("attempt to ... with overflow"). -/
def i32chk (i : Int) : Res Val :=
  if -(2 ^ 31) ≤ i ∧ i < 2 ^ 31 then .ok (.Vi32 i)
  else .panicked "arithmetic overflow"

/-- The Rust `as usize` cast of an i32: two's-complement reinterpretation
into the 64-bit word. -/
def i32AsUsize (i : Int) : Nat := (i % (2 ^ 64 : Int)).toNat

/-- Embedding of `unop` (`src/vm.rs`). -/
def unop (u : Unop) (v : Val) : Res Val :=
  match u with
  | .Neg =>
      match v.to_bool with
      | some b => .ok (.Vbool (!b))
      | none => .err "expected bool"

/-- Embedding of `binop` (`src/vm.rs`): both operands must be i32. Note that the `Lt`
arm of the source computes `i1 <= i2`. Division is Rust `i1 / i2`, which
panics on a zero divisor; out-of-range results of `+`, `*`, `-`, `/` panic
in the debug profile. -/
def binop (b : Binop) (v1 v2 : Val) : Res Val :=
  match v1.to_i32 with
  | none => .err "expected i32"
  | some i1 =>
      match v2.to_i32 with
      | none => .err "expected i32"
      | some i2 =>
          match b with
          | .Add => i32chk (i1 + i2)
          | .Mul => i32chk (i1 * i2)
          | .Sub => i32chk (i1 - i2)
          | .Div =>
              if i2 = 0 then .panicked "attempt to divide by zero"
              else i32chk (Int.tdiv i1 i2)
          | .Lt => .ok (.Vbool (decide (i1 ≤ i2)))
          | .Eq => .ok (.Vbool (decide (i1 = i2)))

/-- Result of one iteration of the interpreter loop: continue with the next
state, or stop because `Halt` was executed. -/
inductive StepOut where
  | next (s : State)
  | halt (s : State)
deriving DecidableEq, Repr

/-- The state carried by a `StepOut`. -/
def StepOut.state : StepOut → State
  | .next s => s
  | .halt s => s

/-- The dispatch on one fetched instruction in the `exec` loop
(`src/vm.rs`); `s` is the state after the `s.pc += 1` increment. Raw
`s.stk.push(..)` calls in the source (no capacity check) appear as plain
`++ [v]`; `State.push` is the checked push. -/
def dispatch (s : State) : Instr → Res StepOut
    | .Push v => Res.bind (s.push v) fun s1 => .ok (.next s1)
    | .Pop => Res.bind s.pop fun vs => .ok (.next vs.2)
    | .Peek i =>
        match s.stk[i]? with
        | some v => Res.bind (s.push v) fun s1 => .ok (.next s1)
        | none => .panicked "index out of bounds"
    | .Unary u => do
        let (v, s1) ← s.pop
        let r ← unop u v
        .ok (.next { s1 with stk := s1.stk ++ [r] })
    | .Binary b => do
        let (v1, s1) ← s.pop
        let (v2, s2) ← s1.pop
        let r ← binop b v1 v2
        .ok (.next { s2 with stk := s2.stk ++ [r] })
    | .Swap => do
        let (v2, s1) ← s.pop
        let (v1, s2) ← s1.pop
        .ok (.next { s2 with stk := s2.stk ++ [v2, v1] })
    | .Alloc => do
        let (vinit, s1) ← s.pop
        let (vsize, s2) ← s1.pop
        match vsize.to_i32 with
        | none => .err "expected i32"
        | some szi =>
            let size := i32AsUsize szi
            if s2.heap.length + size + 1 < HEAP_SIZE then
              .ok (.next { s2 with
                heap := s2.heap ++ [Val.Vsize size] ++ List.replicate size vinit,
                stk := s2.stk ++ [Val.Vaddr s2.heap.length] })
            else .err "out of heap space"
    | .Set => do
        let (v, s1) ← s.pop
        let (vix, s2) ← s1.pop
        let (vbase, s3) ← s2.pop
        match vix.to_i32 with
        | none => .err "expected i32"
        | some ixi =>
            let ix := i32AsUsize ixi
            match vbase.to_address with
            | none => .err "expected address"
            | some base =>
                if base + ix < HEAP_SIZE then
                  match s3.heap[base]? with
                  | some (Val.Vsize size) =>
                      if ix < size then
                        if base + ix + 1 < s3.heap.length then
                          .ok (.next { s3 with heap := s3.heap.set (base + ix + 1) v })
                        else .panicked "index out of bounds"
                      else .err "index past end of array"
                  | some _ => .err "expected size at array location"
                  | none => .panicked "index out of bounds"
                else .err "indexing past end of heap"
    | .Get => do
        let (vix, s1) ← s.pop
        let (vbase, s2) ← s1.pop
        match vix.to_i32 with
        | none => .err "expected i32"
        | some ixi =>
            let ix := i32AsUsize ixi
            match vbase.to_address with
            | none => .err "expected address"
            | some base =>
                if base + ix < HEAP_SIZE then
                  match s2.heap[base]? with
                  | some (Val.Vsize size) =>
                      if ix < size then
                        match s2.heap[base + ix + 1]? with
                        | some hv => Res.bind (s2.push hv) fun s3 => .ok (.next s3)
                        | none => .panicked "index out of bounds"
                      else .err "index past end of array"
                  | some _ => .err "expected size at array location"
                  | none => .panicked "index out of bounds"
                else .err "indexing past end of heap"
    | .Var i =>
        let ix := s.fp + i
        if h : ix < s.stk.length then
          Res.bind (s.push (s.stk.get ⟨ix, h⟩)) fun s1 => .ok (.next s1)
        else .err "variable access past end of stack"
    | .Store i => do
        let ix := s.fp + i
        let (v, s1) ← s.pop
        if ix < s1.stk.length then
          .ok (.next { s1 with stk := s1.stk.set ix v })
        else .err "store past end of stack"
    | .SetFrame i =>
        Res.bind (s.push (.Vloc s.fp)) fun s1 =>
          if i + 1 ≤ s1.stk.length then
            .ok (.next { s1 with fp := s1.stk.length - i - 1 })
          else .panicked "attempt to subtract with overflow"
    | .Call => do
        let (v, s1) ← s.pop
        match v with
        | .Vloc target =>
            .ok (.next { s1 with stk := s1.stk ++ [Val.Vloc s1.pc], pc := target })
        | _ => .err "expected loc for call target"
    | .Ret => do
        let (vret, s1) ← s.pop
        let (v2, s2) ← s1.pop
        let (v3, s3) ← s2.pop
        match v2, v3 with
        | .Vloc pc1, .Vloc fp1 =>
            .ok (.next { s3 with stk := s3.stk.take s3.fp ++ [vret], pc := pc1, fp := fp1 })
        | _, _ => .err "expected location for pc and fp in return"
    | .Branch => do
        let (vtarget, s1) ← s.pop
        let (vb, s2) ← s1.pop
        match vtarget.to_loc with
        | none => .err "expected location"
        | some target =>
            match vb.to_bool with
            | none => .err "expected bool"
            | some b =>
                if b then .ok (.next { s2 with pc := target })
                else .ok (.next s2)
    | .Halt => .ok (.halt s)

/-- One iteration of the `exec` loop (`src/vm.rs`): the pc bounds check,
the fetch, the `pc` increment, and the dispatch on the instruction. -/
def step (s0 : State) : Res StepOut :=
  if hpc : s0.pc < s0.prog.length then
    dispatch { s0 with pc := s0.pc + 1 } (s0.prog.get ⟨s0.pc, hpc⟩)
  else .err "pc out of bounds"

/-- The `exec` loop (`src/vm.rs`), with explicit fuel standing in for the
unbounded Rust loop; exhausting the fuel marks a run that has not yet
terminated. -/
def exec : Nat → State → Res State
  | 0, _ => .err "out of fuel"
  | fuel + 1, s =>
      match step s with
      | .ok (.next s1) => exec fuel s1
      | .ok (.halt s1) => .ok s1
      | .err m => .err m
      | .panicked m => .panicked m

/-- Iterated stepping: the machine state after at most `n` loop iterations
(stopping early at `Halt`), when no error or panic intervenes. Every state
reachable by the executor is `stepn n (State.init prog)` for some `n`. -/
def stepn : Nat → State → Res State
  | 0, s => .ok s
  | n + 1, s =>
      match step s with
      | .ok (.next s1) => stepn n s1
      | .ok (.halt s1) => .ok s1
      | .err m => .err m
      | .panicked m => .panicked m

/-- Embedding of `run` (`src/vm.rs`): initialize the state for the program, run the
loop, then pop the single result value. -/
def run (fuel : Nat) (prog : List Instr) : Res Val :=
  match exec fuel (State.init prog) with
  | .ok s =>
      match s.pop with
      | .ok (v, _) => .ok v
      | .err m => .err m
      | .panicked m => .panicked m
  | .err m => .err m
  | .panicked m => .panicked m

/-! ### Basic lemmas about the VM embedding -/

theorem Res.bind_eq_ok {α β : Type} {x : Res α} {f : α → Res β} {b : β}
    (h : Res.bind x f = .ok b) : ∃ a, x = .ok a ∧ f a = .ok b := by
  cases x with
  | ok a => exact ⟨a, rfl, h⟩
  | err m => simp [Res.bind] at h
  | panicked m => simp [Res.bind] at h

/-- Fetching reduces `step` to `dispatch` on the incremented state. -/
theorem step_eq_dispatch (s : State) (i : Instr) (h : s.prog[s.pc]? = some i) :
    step s = dispatch { s with pc := s.pc + 1 } i := by
  obtain ⟨hlt, hget⟩ := List.getElem?_eq_some.mp h
  simp [step, dif_pos hlt, List.get_eq_getElem, hget]

/-- Popping a stack written as `l ++ [v]` yields `v` and leaves `l`. -/
theorem State.pop_concat (s : State) (l : List Val) (v : Val)
    (h : s.stk = l ++ [v]) : s.pop = .ok (v, { s with stk := l }) := by
  simp [State.pop, h, List.getLast?_concat, List.dropLast_concat]

/-- Inversion for a successful checked push. -/
theorem State.push_ok {s : State} {v : Val} {t : State} (h : s.push v = .ok t) :
    t.stk = s.stk ++ [v] ∧ s.stk.length < STK_SIZE ∧ t.pc = s.pc ∧
      t.fp = s.fp ∧ t.heap = s.heap ∧ t.prog = s.prog := by
  unfold State.push at h
  split at h
  · cases h
    exact ⟨rfl, by assumption, rfl, rfl, rfl, rfl⟩
  · cases h

/-- Inversion for a successful pop. -/
theorem State.pop_ok {s : State} {v : Val} {t : State} (h : s.pop = .ok (v, t)) :
    t.stk.length + 1 = s.stk.length ∧ t.pc = s.pc ∧ t.fp = s.fp ∧
      t.heap = s.heap ∧ t.prog = s.prog := by
  unfold State.pop at h
  cases hl : s.stk.getLast? with
  | none => rw [hl] at h; cases h
  | some w =>
      rw [hl] at h
      cases h
      have hne : s.stk ≠ [] := by
        intro he
        rw [he] at hl
        cases hl
      have hpos : 0 < s.stk.length := List.length_pos.mpr hne
      refine ⟨?_, rfl, rfl, rfl, rfl⟩
      simp only [List.length_dropLast]
      omega

/-! ### Claims C3–C6 -/

/-- C3: the claim that an out-of-bounds index always aborts the run with a
descriptive error result FAILS on the code: the `Peek(i)` arm indexes the
stack unchecked (`s.push(s.stk[i])`), so the one-instruction program
`peek 0`, started on the empty stack, makes the Rust executor panic with an
index-out-of-bounds rather than return an `Err`; likewise `Get`/`Set`
bound `base + ix` against `HEAP_SIZE` instead of the current heap length
and then index `s.heap[base]` unchecked, so `Get` with a base address at
or beyond the heap length also panics. This theorem evaluates the code at
both failing inputs. -/
theorem claim3_out_of_bounds_panics :
    run 10 [.Peek 0] = .panicked "index out of bounds" ∧
    run 10 [.Push (.Vaddr 0), .Push (.Vi32 0), .Get] = .panicked "index out of bounds" := by
  exact ⟨rfl, rfl⟩

/-- C4 (counterexample): a run that executes `Halt` with TWO values left on
the stack does not fail as claimed — it succeeds and returns the top value.
-/
theorem claim4_counterexample_two_leftover_values :
    run 10 [.Push (.Vi32 1), .Push (.Vi32 2), .Halt] = .ok (.Vi32 2) := by
  rfl

/-- C4 (amended): when a run executes `Halt`, the result is the value
popped from the top of the stack: if the stack is empty at halt time the
run fails with the pop error, and if at least one value remains — even
more than one — the run succeeds and returns the topmost value. -/
theorem claim4_halt_pops_top_of_stack (fuel : Nat) (prog : List Instr) (s : State)
    (h : exec fuel (State.init prog) = .ok s) :
    (s.stk = [] → run fuel prog = .err "attempt to pop empty stack") ∧
    ∀ pre v, s.stk = pre ++ [v] → run fuel prog = .ok v := by
  constructor
  · intro hnil
    simp [run, h, State.pop, hnil]
  · intro pre v hstk
    simp only [run, h, State.pop_concat s pre v hstk]

/-- C4 witness: the program `halt` halts with an empty stack, and the run
reports the pop failure. -/
theorem claim4_witness : run 10 [Instr.Halt] = .err "attempt to pop empty stack" :=
  (claim4_halt_pops_top_of_stack 10 [Instr.Halt]
    { pc := 1, fp := 0, stk := [], heap := [], prog := [Instr.Halt] } rfl).1 rfl

/-- C5: the claim that `Peek(i)` pushes the i-th value counting from the
top of the stack FAILS on the code: the arm pushes `s.stk[i]`, the i-th
value from the BOTTOM. On the stack `[10, 20]` (20 on top), `peek 0`
pushes 10, not 20, and the run below surfaces that value. -/
theorem claim5_peek_indexes_from_bottom :
    step { pc := 0, fp := 0, stk := [.Vi32 10, .Vi32 20], heap := [], prog := [.Peek 0] } =
      .ok (.next { pc := 1, fp := 0, stk := [.Vi32 10, .Vi32 20, .Vi32 10],
                   heap := [], prog := [.Peek 0] }) ∧
    run 10 [.Push (.Vi32 10), .Push (.Vi32 20), .Peek 0, .Halt] = .ok (.Vi32 10) := by
  exact ⟨rfl, rfl⟩

/-- C6: the claim that less-than is strict FAILS on the code: the `Lt` arm
of `binop` computes `i1 <= i2`, so less-than applied to two equal integers
yields `true`, contradicting both the claim and the source's own doc
comment on `Binop::Lt`. -/
theorem claim6_lt_is_not_strict :
    binop .Lt (.Vi32 3) (.Vi32 3) = .ok (.Vbool true) ∧
    run 10 [.Push (.Vi32 3), .Push (.Vi32 3), .Binary .Lt, .Halt] = .ok (.Vbool true) := by
  exact ⟨rfl, rfl⟩

theorem Res.ok_bind {α β : Type} (a : α) (f : α → Res β) :
    (Res.ok a : Res α) >>= f = f a := rfl

theorem Res.bind_def {α β : Type} (x : Res α) (f : α → Res β) :
    x >>= f = Res.bind x f := rfl

theorem Res.bind_ok {α β : Type} (a : α) (f : α → Res β) :
    Res.bind (Res.ok a) f = f a := rfl

/-! ### Claim C7 -/

/-- C7: `Alloc` pops an initializer value and an i32 element count `sz`;
when `heap_length + sz + 1` is below the heap capacity it appends one
`Vsize sz` marker slot followed by `sz` copies of the initializer and
pushes the base heap address; when `heap_length + sz + 1 ≥ HEAP_SIZE`
(1024) the step aborts with the "out of heap space" error, so the aborted
run never touches the heap. -/
theorem claim7_alloc_appends_or_rejects (s : State) (rest : List Val) (sz : Int)
    (vinit : Val)
    (hpc : s.prog[s.pc]? = some .Alloc)
    (hstk : s.stk = rest ++ [.Vi32 sz, vinit])
    (h0 : 0 ≤ sz) (h31 : sz < 2 ^ 31) :
    (s.heap.length + sz.toNat + 1 < HEAP_SIZE →
      step s = .ok (.next { s with
        pc := s.pc + 1,
        stk := rest ++ [.Vaddr s.heap.length],
        heap := s.heap ++ [.Vsize sz.toNat] ++ List.replicate sz.toNat vinit })) ∧
    (HEAP_SIZE ≤ s.heap.length + sz.toNat + 1 →
      step s = .err "out of heap space") := by
  have hcast : i32AsUsize sz = sz.toNat := by
    unfold i32AsUsize
    rw [Int.emod_eq_of_lt h0 (by omega)]
  have hpop1 : State.pop { s with pc := s.pc + 1 } =
      .ok (vinit, { s with pc := s.pc + 1, stk := rest ++ [Val.Vi32 sz] }) := by
    apply State.pop_concat
    simpa using hstk
  have hpop2 : State.pop { s with pc := s.pc + 1, stk := rest ++ [Val.Vi32 sz] } =
      .ok (Val.Vi32 sz, { s with pc := s.pc + 1, stk := rest }) :=
    State.pop_concat _ rest _ rfl
  rw [step_eq_dispatch s .Alloc hpc]
  constructor
  · intro hlt
    simp only [dispatch, hpop1, Res.ok_bind, hpop2, Val.to_i32, hcast]
    rw [if_pos hlt]
  · intro hge
    simp only [dispatch, hpop1, Res.ok_bind, hpop2, Val.to_i32, hcast]
    rw [if_neg (by omega)]

/-- C7 witness: allocating 2 unit-initialized slots on an empty heap
appends `[Vsize 2, Vunit, Vunit]` and pushes address 0; allocating 1023
slots fails with "out of heap space". -/
theorem claim7_witness :
    step { pc := 0, fp := 0, stk := [.Vi32 2, .Vunit], heap := [], prog := [.Alloc] } =
      .ok (.next { pc := 1, fp := 0, stk := [.Vaddr 0],
                   heap := [.Vsize 2, .Vunit, .Vunit], prog := [.Alloc] }) ∧
    step { pc := 0, fp := 0, stk := [.Vi32 1023, .Vunit], heap := [], prog := [.Alloc] } =
      .err "out of heap space" := by
  constructor
  · exact (claim7_alloc_appends_or_rejects
      { pc := 0, fp := 0, stk := [.Vi32 2, .Vunit], heap := [], prog := [.Alloc] }
      [] 2 .Vunit rfl rfl (by norm_num) (by norm_num)).1 (by decide)
  · exact (claim7_alloc_appends_or_rejects
      { pc := 0, fp := 0, stk := [.Vi32 1023, .Vunit], heap := [], prog := [.Alloc] }
      [] 1023 .Vunit rfl rfl (by norm_num) (by norm_num)).2 (by decide)

/-! ### Claim C9 -/

/-- C9: `Binary(op)` on a stack ending `..., a, b` (with `b` on top) pops
`b` first and passes it to `binop` as the first (left) operand and `a` as
the second, so subtract computes `b - a`, divide computes `b / a`
(truncated division), and less-than compares `b` against `a`. -/
theorem claim9_binary_pops_top_as_left_operand (s : State) (rest : List Val)
    (a b : Int) (op : Binop)
    (hpc : s.prog[s.pc]? = some (.Binary op))
    (hstk : s.stk = rest ++ [.Vi32 a, .Vi32 b]) :
    step s = Res.bind (binop op (.Vi32 b) (.Vi32 a)) (fun r =>
        .ok (.next { s with pc := s.pc + 1, stk := rest ++ [r] })) ∧
    (op = .Sub → -(2 ^ 31) ≤ b - a → b - a < 2 ^ 31 →
      step s = .ok (.next { s with pc := s.pc + 1, stk := rest ++ [.Vi32 (b - a)] })) ∧
    (op = .Div → a ≠ 0 → -(2 ^ 31) ≤ Int.tdiv b a → Int.tdiv b a < 2 ^ 31 →
      step s = .ok (.next { s with pc := s.pc + 1, stk := rest ++ [.Vi32 (Int.tdiv b a)] })) ∧
    (op = .Lt →
      step s = .ok (.next { s with
        pc := s.pc + 1,
        stk := rest ++ [.Vbool (decide (b ≤ a))] })) := by
  have hpop1 : State.pop { s with pc := s.pc + 1 } =
      .ok (Val.Vi32 b, { s with pc := s.pc + 1, stk := rest ++ [Val.Vi32 a] }) := by
    apply State.pop_concat
    simpa using hstk
  have hpop2 : State.pop { s with pc := s.pc + 1, stk := rest ++ [Val.Vi32 a] } =
      .ok (Val.Vi32 a, { s with pc := s.pc + 1, stk := rest }) :=
    State.pop_concat _ rest _ rfl
  have hmain : step s = Res.bind (binop op (.Vi32 b) (.Vi32 a)) (fun r =>
      .ok (.next { s with pc := s.pc + 1, stk := rest ++ [r] })) := by
    rw [step_eq_dispatch s (.Binary op) hpc]
    simp only [dispatch, Res.bind_def, hpop1, Res.bind_ok, hpop2]
  refine ⟨hmain, ?_, ?_, ?_⟩
  · rintro rfl hge hlt
    rw [hmain]
    simp only [binop, Val.to_i32, i32chk, if_pos (And.intro hge hlt), Res.bind]
  · rintro rfl hne hge hlt
    rw [hmain]
    simp only [binop, Val.to_i32, if_neg hne, i32chk, if_pos (And.intro hge hlt), Res.bind]
  · rintro rfl
    rw [hmain]
    simp only [binop, Val.to_i32, Res.bind]

/-- C9 witness: with 2 pushed below 7 (7 on top), `binary -` leaves 5 =
7 - 2, not -5. -/
theorem claim9_witness :
    step { pc := 0, fp := 0, stk := [.Vi32 2, .Vi32 7], heap := [], prog := [.Binary .Sub] } =
      .ok (.next { pc := 1, fp := 0, stk := [.Vi32 5], heap := [], prog := [.Binary .Sub] }) :=
  (claim9_binary_pops_top_as_left_operand
    { pc := 0, fp := 0, stk := [.Vi32 2, .Vi32 7], heap := [], prog := [.Binary .Sub] }
    [] 2 7 .Sub rfl rfl).2.1 rfl (by norm_num) (by norm_num)

/-! ### Claim C8 -/

/-- A checked push on a non-full stack appends the value. -/
theorem State.push_lt (s : State) (v : Val) (h : s.stk.length < STK_SIZE) :
    s.push v = .ok { s with stk := s.stk ++ [v] } := by
  simp [State.push, if_pos h]

/-- C8: frame discipline of `SetFrame`/`Call`/`Ret`. First conjunct: from a
caller state with stack `pre ++ args`, frame pointer `f0` and pc `p`,
executing `SetFrame args.length; Push (Vloc t); Call` pushes the caller's
frame pointer and the return address `p + 3`, sets the frame pointer to
`pre.length` and jumps to `t`. Second conjunct: from any later callee
state whose stack is that call-time stack plus a return value on top,
executing `Ret` pops the return value, the saved pc and the saved fp,
truncates the stack to the frame pointer (discarding the callee's
arguments/locals), restores the caller's pc `p + 3` and fp `f0` exactly,
and leaves `pre ++ [vret]`: exactly one new value at the caller's frame
level. -/
theorem claim8_call_ret_frame_discipline
    (prog : List Instr) (pre args heap heap2 : List Val)
    (f0 p t q : Nat) (vret : Val)
    (h1 : prog[p]? = some (.SetFrame args.length))
    (h2 : prog[p + 1]? = some (.Push (.Vloc t)))
    (h3 : prog[p + 1 + 1]? = some .Call)
    (hq : prog[q]? = some .Ret)
    (hcap : pre.length + args.length + 1 < STK_SIZE) :
    stepn 3 ⟨p, f0, pre ++ args, heap, prog⟩ =
      .ok ⟨t, pre.length, pre ++ args ++ [.Vloc f0, .Vloc (p + 3)], heap, prog⟩ ∧
    step ⟨q, pre.length, pre ++ args ++ [.Vloc f0, .Vloc (p + 3), vret], heap2, prog⟩ =
      .ok (.next ⟨p + 3, f0, pre ++ [vret], heap2, prog⟩) := by
  have hA : step (⟨p, f0, pre ++ args, heap, prog⟩ : State) =
      .ok (.next ⟨p + 1, pre.length, pre ++ args ++ [.Vloc f0], heap, prog⟩) := by
    rw [step_eq_dispatch _ (.SetFrame args.length) h1]
    simp only [dispatch, Res.bind_def]
    rw [State.push_lt _ _ (by simp only [List.length_append]; omega)]
    simp only [Res.bind_ok]
    rw [if_pos (by simp only [List.length_append, List.length_cons, List.length_nil]; omega)]
    rw [show (pre ++ args ++ [Val.Vloc f0] : List Val).length - args.length - 1 = pre.length from by
      simp only [List.length_append, List.length_cons, List.length_nil]; omega]
  have hB : step (⟨p + 1, pre.length, pre ++ args ++ [.Vloc f0], heap, prog⟩ : State) =
      .ok (.next ⟨p + 1 + 1, pre.length, pre ++ args ++ [.Vloc f0, .Vloc t], heap, prog⟩) := by
    rw [step_eq_dispatch _ (.Push (.Vloc t)) h2]
    simp only [dispatch, Res.bind_def]
    rw [State.push_lt _ _ (by
      simp only [List.length_append, List.length_cons, List.length_nil]; omega)]
    simp [Res.bind_ok, List.append_assoc]
  have hC : step (⟨p + 1 + 1, pre.length, pre ++ args ++ [.Vloc f0, .Vloc t], heap, prog⟩ : State) =
      .ok (.next ⟨t, pre.length, pre ++ args ++ [.Vloc f0, .Vloc (p + 1 + 1 + 1)], heap, prog⟩) := by
    rw [step_eq_dispatch _ .Call h3]
    simp only [dispatch, Res.bind_def]
    rw [State.pop_concat _ (pre ++ args ++ [Val.Vloc f0]) (Val.Vloc t) (by simp)]
    simp [Res.bind_ok, List.append_assoc]
  have hD : step (⟨q, pre.length, pre ++ args ++ [.Vloc f0, .Vloc (p + 3), vret], heap2, prog⟩ : State) =
      .ok (.next ⟨p + 3, f0, pre ++ [vret], heap2, prog⟩) := by
    rw [step_eq_dispatch _ .Ret hq]
    simp only [dispatch, Res.bind_def]
    rw [State.pop_concat _ (pre ++ args ++ [Val.Vloc f0, Val.Vloc (p + 3)]) vret (by simp)]
    simp only [Res.bind_ok]
    rw [State.pop_concat _ (pre ++ args ++ [Val.Vloc f0]) (Val.Vloc (p + 3)) (by simp)]
    simp only [Res.bind_ok]
    rw [State.pop_concat _ (pre ++ args) (Val.Vloc f0) (by simp)]
    simp only [Res.bind_ok]
    simp only [List.take_left, Res.ok.injEq, StepOut.next.injEq, State.mk.injEq]
  constructor
  · simp only [stepn, hA, hB, hC]
  · exact hD

/-- C8 witness: the six-instruction program
`setframe 0; push (loc 4); call; halt; push 5; ret`
performs the call prelude and the matching `ret` concretely. -/
theorem claim8_witness :
    stepn 3 ⟨0, 0, [], [], [.SetFrame 0, .Push (.Vloc 4), .Call, .Halt, .Push (.Vi32 5), .Ret]⟩ =
      .ok ⟨4, 0, [.Vloc 0, .Vloc 3], [],
        [.SetFrame 0, .Push (.Vloc 4), .Call, .Halt, .Push (.Vi32 5), .Ret]⟩ ∧
    step ⟨5, 0, [.Vloc 0, .Vloc 3, .Vi32 5], [],
        [.SetFrame 0, .Push (.Vloc 4), .Call, .Halt, .Push (.Vi32 5), .Ret]⟩ =
      .ok (.next ⟨3, 0, [.Vi32 5], [],
        [.SetFrame 0, .Push (.Vloc 4), .Call, .Halt, .Push (.Vi32 5), .Ret]⟩) :=
  claim8_call_ret_frame_discipline
    [.SetFrame 0, .Push (.Vloc 4), .Call, .Halt, .Push (.Vi32 5), .Ret]
    [] [] [] [] 0 0 4 5 (.Vi32 5) rfl rfl rfl rfl (by decide)

/-! ### Claim C10 -/

theorem Res.ok_inj {α : Type} {a b : α} (h : (Res.ok a : Res α) = .ok b) : a = b := by
  cases h
  rfl

/-- Core preservation lemma for the stack-capacity invariant: if the stack
respects the capacity before an instruction dispatch and the dispatch
succeeds, the resulting stack still respects the capacity. Every arm that
grows the stack either uses the checked `State.push` or first pops at
least as many values as it pushes back. -/
theorem dispatch_stk_le (s : State) (i : Instr) (out : StepOut)
    (h : s.stk.length ≤ STK_SIZE) (hout : dispatch s i = .ok out) :
    out.state.stk.length ≤ STK_SIZE := by
  cases i with
  | Push v =>
      simp only [dispatch, Res.bind_def] at hout
      obtain ⟨s1, hp, he⟩ := Res.bind_eq_ok hout
      obtain ⟨hstk, hlt, -, -, -, -⟩ := State.push_ok hp
      cases he
      simp only [StepOut.state, hstk, List.length_append, List.length_cons, List.length_nil]
      omega
  | Pop =>
      simp only [dispatch, Res.bind_def] at hout
      obtain ⟨⟨v, s1⟩, hp, he⟩ := Res.bind_eq_ok hout
      obtain ⟨hlen, -, -, -, -⟩ := State.pop_ok hp
      cases he
      simp only [StepOut.state]
      omega
  | Peek i =>
      simp only [dispatch, Res.bind_def] at hout
      rcases hv : s.stk[i]? with - | v <;> rw [hv] at hout
      · cases hout
      · simp only [Res.bind_def] at hout
        obtain ⟨s1, hp, he⟩ := Res.bind_eq_ok hout
        obtain ⟨hstk, hlt, -, -, -, -⟩ := State.push_ok hp
        cases he
        simp only [StepOut.state, hstk, List.length_append, List.length_cons, List.length_nil]
        omega
  | Unary u =>
      simp only [dispatch, Res.bind_def] at hout
      obtain ⟨⟨v, s1⟩, hp, hout⟩ := Res.bind_eq_ok hout
      obtain ⟨hlen, -, -, -, -⟩ := State.pop_ok hp
      simp only [] at hout
      obtain ⟨r, hr, he⟩ := Res.bind_eq_ok hout
      cases he
      simp only [StepOut.state, List.length_append, List.length_cons, List.length_nil]
      omega
  | Binary b =>
      simp only [dispatch, Res.bind_def] at hout
      obtain ⟨⟨v1, s1⟩, hp1, hout⟩ := Res.bind_eq_ok hout
      obtain ⟨hl1, -, -, -, -⟩ := State.pop_ok hp1
      simp only [] at hout
      obtain ⟨⟨v2, s2⟩, hp2, hout⟩ := Res.bind_eq_ok hout
      obtain ⟨hl2, -, -, -, -⟩ := State.pop_ok hp2
      simp only [] at hout
      obtain ⟨r, hr, he⟩ := Res.bind_eq_ok hout
      cases he
      simp only [StepOut.state, List.length_append, List.length_cons, List.length_nil]
      omega
  | Swap =>
      simp only [dispatch, Res.bind_def] at hout
      obtain ⟨⟨v2, s1⟩, hp1, hout⟩ := Res.bind_eq_ok hout
      obtain ⟨hl1, -, -, -, -⟩ := State.pop_ok hp1
      simp only [] at hout
      obtain ⟨⟨v1, s2⟩, hp2, he⟩ := Res.bind_eq_ok hout
      obtain ⟨hl2, -, -, -, -⟩ := State.pop_ok hp2
      cases he
      simp only [StepOut.state, List.length_append, List.length_cons, List.length_nil]
      omega
  | Alloc =>
      simp only [dispatch, Res.bind_def] at hout
      obtain ⟨⟨vinit, s1⟩, hp1, hout⟩ := Res.bind_eq_ok hout
      obtain ⟨hl1, -, -, -, -⟩ := State.pop_ok hp1
      simp only [] at hout
      obtain ⟨⟨vsize, s2⟩, hp2, hout⟩ := Res.bind_eq_ok hout
      obtain ⟨hl2, -, -, -, -⟩ := State.pop_ok hp2
      simp only [] at hout
      repeat' split at hout
      all_goals cases hout
      all_goals simp only [StepOut.state, List.length_append, List.length_cons, List.length_nil]
      all_goals omega
  | Set =>
      simp only [dispatch, Res.bind_def] at hout
      obtain ⟨⟨v, s1⟩, hp1, hout⟩ := Res.bind_eq_ok hout
      obtain ⟨hl1, -, -, -, -⟩ := State.pop_ok hp1
      simp only [] at hout
      obtain ⟨⟨vix, s2⟩, hp2, hout⟩ := Res.bind_eq_ok hout
      obtain ⟨hl2, -, -, -, -⟩ := State.pop_ok hp2
      simp only [] at hout
      obtain ⟨⟨vbase, s3⟩, hp3, hout⟩ := Res.bind_eq_ok hout
      obtain ⟨hl3, -, -, -, -⟩ := State.pop_ok hp3
      simp only [] at hout
      repeat' split at hout
      all_goals cases hout
      all_goals simp only [StepOut.state]
      all_goals omega
  | Get =>
      simp only [dispatch, Res.bind_def] at hout
      obtain ⟨⟨vix, s1⟩, hp1, hout⟩ := Res.bind_eq_ok hout
      obtain ⟨hl1, -, -, -, -⟩ := State.pop_ok hp1
      simp only [] at hout
      obtain ⟨⟨vbase, s2⟩, hp2, hout⟩ := Res.bind_eq_ok hout
      obtain ⟨hl2, -, -, -, -⟩ := State.pop_ok hp2
      simp only [] at hout
      repeat' split at hout
      all_goals first
        | cases hout
        | (obtain ⟨s3, hp, he⟩ := Res.bind_eq_ok hout
           obtain ⟨hstk, hlt, -, -, -, -⟩ := State.push_ok hp
           cases he
           simp only [StepOut.state, hstk, List.length_append, List.length_cons, List.length_nil]
           omega)
  | Var i =>
      simp only [dispatch, Res.bind_def] at hout
      split at hout
      · obtain ⟨s1, hp, he⟩ := Res.bind_eq_ok hout
        obtain ⟨hstk, hlt, -, -, -, -⟩ := State.push_ok hp
        cases he
        simp only [StepOut.state, hstk, List.length_append, List.length_cons, List.length_nil]
        omega
      · cases hout
  | Store i =>
      simp only [dispatch, Res.bind_def] at hout
      obtain ⟨⟨v, s1⟩, hp, hout⟩ := Res.bind_eq_ok hout
      obtain ⟨hl1, -, -, -, -⟩ := State.pop_ok hp
      simp only [] at hout
      split at hout
      · cases hout
        simp only [StepOut.state, List.length_set]
        omega
      · cases hout
  | SetFrame i =>
      simp only [dispatch, Res.bind_def] at hout
      obtain ⟨s1, hp, hout⟩ := Res.bind_eq_ok hout
      obtain ⟨hstk, hlt, -, -, -, -⟩ := State.push_ok hp
      split at hout
      · cases hout
        simp only [StepOut.state, hstk, List.length_append, List.length_cons, List.length_nil]
        omega
      · cases hout
  | Call =>
      simp only [dispatch, Res.bind_def] at hout
      obtain ⟨⟨v, s1⟩, hp, hout⟩ := Res.bind_eq_ok hout
      obtain ⟨hl1, -, -, -, -⟩ := State.pop_ok hp
      simp only [] at hout
      split at hout
      · cases hout
        simp only [StepOut.state, List.length_append, List.length_cons, List.length_nil]
        omega
      · cases hout
  | Ret =>
      simp only [dispatch, Res.bind_def] at hout
      obtain ⟨⟨vret, s1⟩, hp1, hout⟩ := Res.bind_eq_ok hout
      obtain ⟨hl1, -, -, -, -⟩ := State.pop_ok hp1
      simp only [] at hout
      obtain ⟨⟨v2, s2⟩, hp2, hout⟩ := Res.bind_eq_ok hout
      obtain ⟨hl2, -, -, -, -⟩ := State.pop_ok hp2
      simp only [] at hout
      obtain ⟨⟨v3, s3⟩, hp3, hout⟩ := Res.bind_eq_ok hout
      obtain ⟨hl3, -, -, -, -⟩ := State.pop_ok hp3
      simp only [] at hout
      split at hout
      · cases hout
        simp only [StepOut.state, List.length_append, List.length_cons, List.length_nil,
          List.length_take]
        omega
      · cases hout
  | Branch =>
      simp only [dispatch, Res.bind_def] at hout
      obtain ⟨⟨vt, s1⟩, hp1, hout⟩ := Res.bind_eq_ok hout
      obtain ⟨hl1, -, -, -, -⟩ := State.pop_ok hp1
      simp only [] at hout
      obtain ⟨⟨vb, s2⟩, hp2, hout⟩ := Res.bind_eq_ok hout
      obtain ⟨hl2, -, -, -, -⟩ := State.pop_ok hp2
      simp only [] at hout
      repeat' split at hout
      all_goals cases hout
      all_goals simp only [StepOut.state]
      all_goals omega
  | Halt =>
      simp only [dispatch] at hout
      cases hout
      simp only [StepOut.state]
      omega

/-- Step-level preservation: a successful `step` keeps the stack within
capacity. -/
theorem step_stk_le (s : State) (out : StepOut)
    (h : s.stk.length ≤ STK_SIZE) (hout : step s = .ok out) :
    out.state.stk.length ≤ STK_SIZE := by
  unfold step at hout
  split at hout
  · refine dispatch_stk_le _ _ _ ?_ hout
    exact h
  · cases hout

/-- Reachability-level preservation along `stepn`. -/
theorem stepn_stk_le (n : Nat) (s0 s : State)
    (h0 : s0.stk.length ≤ STK_SIZE) (h : stepn n s0 = .ok s) :
    s.stk.length ≤ STK_SIZE := by
  induction n generalizing s0 with
  | zero =>
      cases h
      exact h0
  | succ n ih =>
      unfold stepn at h
      cases hstep : step s0 with
      | ok a =>
          cases a with
          | next s1 =>
              rw [hstep] at h
              exact ih s1 (step_stk_le s0 (.next s1) h0 hstep) h
          | halt s1 =>
              rw [hstep] at h
              cases h
              exact step_stk_le s0 (.halt s) h0 hstep
      | err m =>
          rw [hstep] at h
          cases h
      | panicked m =>
          rw [hstep] at h
          cases h
  
/-- C10: starting from the initial state (empty stack) of any program,
every machine state the executor reaches through successful loop
iterations has stack length at most `STK_SIZE` (1024): each instruction
either pushes through the overflow-checked `State::push` or first pops at
least as many values as it pushes back. -/
theorem claim10_stack_capacity_invariant (n : Nat) (prog : List Instr) (s : State)
    (h : stepn n (State.init prog) = .ok s) : s.stk.length ≤ STK_SIZE :=
  stepn_stk_le n (State.init prog) s (by simp [State.init]) h

/-- C10 witness: the state reached after one step of `push 1; halt`
satisfies the capacity invariant. -/
theorem claim10_witness :
    (⟨1, 0, [Val.Vi32 1], [], [Instr.Push (Val.Vi32 1), Instr.Halt]⟩ : State).stk.length ≤
      STK_SIZE :=
  claim10_stack_capacity_invariant 1 [Instr.Push (Val.Vi32 1), Instr.Halt]
    ⟨1, 0, [Val.Vi32 1], [], [Instr.Push (Val.Vi32 1), Instr.Halt]⟩ rfl
